import Mathlib

/-!
Verification of the FCM push-notification gateway (`src/server.js`): the
in-memory token registry (`tokensByUser`, `metaByToken`) and the dispatch
handlers (`/notifications/send`, `/notifications/sendToToken`), shallowly
embedded as pure Lean functions.  JS `Map`s are modelled as association
lists in insertion order, JS `Set`s as duplicate-free lists in insertion
order, and JS truthiness of a string (`userId && ...`, `platform || ...`)
as the string being nonempty.
-/

namespace FcmServer

/-- JSON payload values appearing in a request's `data` object: the scalar
cases of the payload union (string, number, boolean, null).  `num` carries
an integer, matching the integer literals the spec exercises. -/
inductive JsValue where
  | str (s : String)
  | num (n : Int)
  | bool (b : Bool)
  | null
deriving Repr, DecidableEq

/-- JSON escaping of a single character inside a string literal, as
`JSON.stringify` performs it for the common escapes. -/
def jsonEscapeChar (c : Char) : String :=
  if c = '"' then "\\\""
  else if c = '\\' then "\\\\"
  else if c = '\n' then "\\n"
  else if c = '\t' then "\\t"
  else if c = '\r' then "\\r"
  else String.singleton c

/-- A JSON string literal: the escaped characters wrapped in quotes. -/
def jsonQuote (s : String) : String :=
  "\"" ++ String.join (s.toList.map jsonEscapeChar) ++ "\""

/-- The textual JSON representation of a payload value, as produced by
`JSON.stringify` on these values. -/
def JsValue.stringify : JsValue → String
  | .str s => jsonQuote s
  | .num n => toString n
  | .bool b => cond b "true" "false"
  | .null => "null"

/-- `ensureStringData` (server.js:151-158): every value of the payload
object is coerced to a string; a value that is already a string is kept
as is (`typeof v === "string" ? v : JSON.stringify(v)`), any other value
is replaced by its JSON text. -/
def ensureStringData (data : List (String × JsValue)) : List (String × String) :=
  data.map fun kv =>
    (kv.1, match kv.2 with
      | JsValue.str s => s
      | v => JsValue.stringify v)

/-- Metadata attached to a registered token (server.js:136-140). -/
structure TokenMeta where
  userId : String
  platform : String
  updatedAt : Nat
deriving Repr, DecidableEq

/-- The two in-memory indexes (server.js:128-129): `tokensByUser` maps a
userId to its set of tokens, `metaByToken` maps a token to its metadata. -/
structure Registry where
  tokensByUser : List (String × List String)
  metaByToken : List (String × TokenMeta)
deriving Repr, DecidableEq

def emptyRegistry : Registry := ⟨[], []⟩

/-- `Map.get`: the value at the first (and, for maps built by `mapSet`,
only) occurrence of the key. -/
def alistGet (k : String) : List (String × α) → Option α
  | [] => none
  | kv :: rest => if kv.1 = k then some kv.2 else alistGet k rest

/-- `Map.set`: update the entry in place when the key is present, append
a new entry otherwise (JS `Map` keeps insertion order). -/
def mapSet (k : String) (v : α) : List (String × α) → List (String × α)
  | [] => [(k, v)]
  | kv :: rest => if kv.1 = k then (k, v) :: rest else kv :: mapSet k v rest

/-- `Map.delete`: drop the entries with the given key. -/
def mapDelete (k : String) : List (String × α) → List (String × α)
  | [] => []
  | kv :: rest => if kv.1 = k then mapDelete k rest else kv :: mapDelete k rest

/-- `Set.add`: append the element unless already present (JS `Set` keeps
insertion order and ignores re-insertion). -/
def setAdd (t : String) (s : List String) : List String :=
  if t ∈ s then s else s ++ [t]

/-- JS `v || dflt` on an optional string: the default replaces an absent
or empty (falsy) string. -/
def jsOrDefault (p : Option String) (dflt : String) : String :=
  match p with
  | none => dflt
  | some s => if s = "" then dflt else s

/-- `upsertToken` (server.js:132-141): ensure the user has a token set,
add the token to it, and (re)write the token's metadata with the given
user, defaulted platform, and fresh timestamp `now`. -/
def upsertToken (userId token : String) (platform : Option String) (now : Nat)
    (st : Registry) : Registry :=
  let s := (alistGet userId st.tokensByUser).getD []
  { tokensByUser := mapSet userId (setAdd token s) st.tokensByUser
    metaByToken := mapSet token ⟨userId, jsOrDefault platform "android", now⟩ st.metaByToken }

/-- `removeToken` (server.js:143-149): when `userId` is truthy and has an
entry, delete the token from its set and drop the entry if it became
empty; in all cases delete the token's metadata. -/
def removeToken (userId token : String) (st : Registry) : Registry :=
  let tbu :=
    if userId ≠ "" then
      match alistGet userId st.tokensByUser with
      | none => st.tokensByUser
      | some s =>
        let s2 := s.filter fun x => x != token
        if s2.isEmpty then mapDelete userId st.tokensByUser
        else mapSet userId s2 st.tokensByUser
    else st.tokensByUser
  { tokensByUser := tbu, metaByToken := mapDelete token st.metaByToken }

/-- `tokensByUser.get(userId)` viewed as a snapshot list
(`Array.from(tokenSet)`, server.js:313): empty when the user is unknown. -/
def tokensOf (st : Registry) (userId : String) : List String :=
  (alistGet userId st.tokensByUser).getD []

/-- `metaByToken.get(token)` (server.js:333). -/
def metadataOf (st : Registry) (token : String) : Option TokenMeta :=
  alistGet token st.metaByToken

/-- Whether `pat` occurs at the head of `cs`. -/
def startsWithChars : List Char → List Char → Bool
  | _, [] => true
  | [], _ :: _ => false
  | c :: cs, p :: ps => c = p && startsWithChars cs ps

/-- Whether `pat` occurs somewhere inside `cs`. -/
def containsChars (cs pat : List Char) : Bool :=
  startsWithChars cs pat ||
    match cs with
    | [] => false
    | _ :: rest => containsChars rest pat

/-- JS `s.includes(sub)`: substring containment. -/
def jsIncludes (s sub : String) : Bool :=
  containsChars s.toList sub.toList

/-- The invalid-token classification (server.js:332): the error code
contains `registration-token-not-registered` or `invalid-argument`. -/
def isInvalidTokenCode (code : String) : Bool :=
  jsIncludes code "registration-token-not-registered" ||
    jsIncludes code "invalid-argument"

/-- One per-token outcome of the provider's multicast send
(spec section 6: `{success, messageId?, errorCode?}`); `errorCode` is read
as `r.error?.code || ""` so an absent code is the empty string. -/
structure MulticastOutcome where
  success : Bool
  errorCode : String
deriving Repr, DecidableEq

/-- Modelled from the spec: the provider's multicast response. The
provider is an excluded external collaborator; per spec section 6 it
returns a per-token outcome list order-aligned with the input tokens, and
its reported `successCount`/`failureCount` aggregate those outcomes. -/
structure MulticastResponse where
  responses : List MulticastOutcome
deriving Repr, DecidableEq

def MulticastResponse.successCount (r : MulticastResponse) : Nat :=
  r.responses.countP fun o => o.success

def MulticastResponse.failureCount (r : MulticastResponse) : Nat :=
  r.responses.countP fun o => !o.success

/-- The dispatch failures surfaced by `/notifications/send`: the 404
`No tokens for this user` and the 500 carrying the provider error. -/
inductive SendError where
  | noTokensForUser
  | providerError (e : String)
deriving Repr, DecidableEq

/-- One iteration of the cleanup loop (server.js:327-337) on the pair of
a per-token outcome and the token at the same index: on a failure whose
code classifies the token as permanently invalid, look up the token's
metadata and, when it exists with a truthy owner, remove the token under
that owner; otherwise leave the registry alone. -/
def cleanupStep (st : Registry) (rt : MulticastOutcome × String) : Registry :=
  if rt.1.success then st
  else if isInvalidTokenCode rt.1.errorCode then
    match metadataOf st rt.2 with
    | some meta => if meta.userId ≠ "" then removeToken meta.userId rt.2 st else st
    | none => st
  else st

/-- The whole cleanup pass: the outcomes paired positionally with the
token list that was sent (`tokens[idx]`). -/
def cleanupInvalid (tokens : List String) (responses : List MulticastOutcome)
    (st : Registry) : Registry :=
  (responses.zip tokens).foldl cleanupStep st

/-- The `/notifications/send` handler past its boundary validation
(server.js:308-346), with the provider call abstracted as a function from
the token list and normalized payload to either a provider-level error or
a multicast response: resolve the user's tokens (404 when empty), call
the provider with the normalized payload, run the invalid-token cleanup
over the per-token outcomes, and report the provider's aggregate counts;
a provider-level error is surfaced and nothing is cleaned up. -/
def sendToUser (userId : String) (data : List (String × JsValue)) (st : Registry)
    (provider : List String → List (String × String) → Except String MulticastResponse) :
    Except SendError (Nat × Nat) × Registry :=
  let tokens := tokensOf st userId
  if tokens.isEmpty then (Except.error SendError.noTokensForUser, st)
  else
    let payloadData := ensureStringData data
    match provider tokens payloadData with
    | Except.error e => (Except.error (SendError.providerError e), st)
    | Except.ok resp =>
        (Except.ok (resp.successCount, resp.failureCount),
         cleanupInvalid tokens resp.responses st)

/-- The `/notifications/sendToToken` handler past its boundary validation
(server.js:376-393), with the single send abstracted as a function from
the token and normalized payload to a message id or a provider error: the
registry is never touched. -/
def sendToToken (token : String) (data : List (String × JsValue)) (st : Registry)
    (provider : String → List (String × String) → Except String String) :
    Except String String × Registry :=
  match provider token (ensureStringData data) with
  | Except.ok messageId => (Except.ok messageId, st)
  | Except.error e => (Except.error e, st)

/-- The registry operations reachable through the API: register/update
upserts, unregister removals, and the registry effect of a dispatch
(whose provider outcome is recorded in the operation). -/
inductive Op where
  | upsert (userId token : String) (platform : Option String) (now : Nat)
  | remove (userId token : String)
  | dispatch (userId : String) (outcome : Except String MulticastResponse)

/-- The registry effect of one operation. -/
def applyOp (st : Registry) : Op → Registry
  | Op.upsert u t p n => upsertToken u t p n st
  | Op.remove u t => removeToken u t st
  | Op.dispatch u outcome => (sendToUser u [] st fun _ _ => outcome).2

/-- The registry after a sequence of operations from the empty registry. -/
def applyOps (ops : List Op) : Registry :=
  ops.foldl applyOp emptyRegistry

/-! ### Association-list and set lemmas -/

theorem alistGet_mapSet_self (k : String) (v : α) (m : List (String × α)) :
    alistGet k (mapSet k v m) = some v := by
  induction m with
  | nil => simp [mapSet, alistGet]
  | cons kv rest ih =>
    by_cases h : kv.1 = k
    · simp [mapSet, h, alistGet]
    · simp [mapSet, h, alistGet, ih]

theorem alistGet_mapSet_ne (k' k : String) (v : α) (m : List (String × α))
    (h : k' ≠ k) : alistGet k' (mapSet k v m) = alistGet k' m := by
  induction m with
  | nil => simp [mapSet, alistGet, Ne.symm h]
  | cons kv rest ih =>
    by_cases hk : kv.1 = k
    · simp [mapSet, hk, alistGet, Ne.symm h, hk ▸ Ne.symm h]
    · simp [mapSet, hk, alistGet, ih]

theorem alistGet_mapDelete_self (k : String) (m : List (String × α)) :
    alistGet k (mapDelete k m) = none := by
  induction m with
  | nil => simp [mapDelete, alistGet]
  | cons kv rest ih =>
    by_cases h : kv.1 = k
    · simpa [mapDelete, h] using ih
    · simpa [mapDelete, alistGet, h] using ih

theorem alistGet_mapDelete_ne (k' k : String) (m : List (String × α))
    (h : k' ≠ k) : alistGet k' (mapDelete k m) = alistGet k' m := by
  induction m with
  | nil => simp [mapDelete]
  | cons kv rest ih =>
    by_cases hk : kv.1 = k
    · simpa [mapDelete, hk, alistGet, Ne.symm h] using ih
    · by_cases hk' : kv.1 = k'
      · simp [mapDelete, hk, alistGet, hk', h]
      · simpa [mapDelete, hk, alistGet, hk'] using ih

theorem mapDelete_of_absent (k : String) (m : List (String × α))
    (h : alistGet k m = none) : mapDelete k m = m := by
  induction m with
  | nil => simp [mapDelete]
  | cons kv rest ih =>
    by_cases hk : kv.1 = k
    · simp [alistGet, hk] at h
    · simp only [alistGet, hk, if_false] at h
      simp [mapDelete, hk, ih h]

theorem mapSet_of_lookup (k : String) (v : α) (m : List (String × α))
    (h : alistGet k m = some v) : mapSet k v m = m := by
  induction m with
  | nil => simp [alistGet] at h
  | cons kv rest ih =>
    obtain ⟨a, b⟩ := kv
    by_cases hk : a = k
    · simp only [alistGet, hk, if_pos] at h
      have h2 : b = v := Option.some.inj (by simpa using h)
      simp [mapSet, hk, h2]
    · simp only [alistGet, hk, if_false] at h
      simp [mapSet, hk, ih h]

theorem mapSet_mapSet (k : String) (v w : α) (m : List (String × α)) :
    mapSet k v (mapSet k w m) = mapSet k v m := by
  induction m with
  | nil => simp [mapSet]
  | cons kv rest ih =>
    by_cases hk : kv.1 = k
    · simp [mapSet, hk]
    · simp [mapSet, hk, ih]

theorem mem_setAdd_self (t : String) (s : List String) : t ∈ setAdd t s := by
  unfold setAdd
  split
  · assumption
  · simp

theorem setAdd_of_mem {t : String} {s : List String} (h : t ∈ s) :
    setAdd t s = s := if_pos h

theorem mem_setAdd_of_mem {x t : String} {s : List String} (h : x ∈ s) :
    x ∈ setAdd t s := by
  unfold setAdd
  split
  · exact h
  · simp [h]

theorem setAdd_ne_nil (t : String) (s : List String) : setAdd t s ≠ [] :=
  fun h => by simpa [h] using mem_setAdd_self t s

theorem filter_ne_of_not_mem {t : String} {s : List String} (h : t ∉ s) :
    (s.filter fun x => x != t) = s := by
  apply List.filter_eq_self.mpr
  intro a ha
  have : a ≠ t := fun e => h (e ▸ ha)
  simpa using this

theorem not_mem_filter_ne (t : String) (s : List String) :
    t ∉ s.filter fun x => x != t := by
  intro h
  simp [List.mem_filter] at h

theorem mem_filter_ne {x t : String} {s : List String} (hx : x ∈ s) (hne : x ≠ t) :
    x ∈ s.filter fun x => x != t := by
  simp [List.mem_filter, hx, hne]

/-! ### Registry invariants over reachable states -/

/-- Every token with a metadata entry appears in some user's token set. -/
def MetaInMembership (st : Registry) : Prop :=
  ∀ t m, alistGet t st.metaByToken = some m →
    ∃ u s, alistGet u st.tokensByUser = some s ∧ t ∈ s

/-- No user entry holds an empty token set. -/
def NoEmptyUserEntry (st : Registry) : Prop :=
  ∀ u s, alistGet u st.tokensByUser = some s → s ≠ []

theorem removeToken_tokensByUser (u t : String) (st : Registry) :
    (removeToken u t st).tokensByUser =
      if u ≠ "" then
        match alistGet u st.tokensByUser with
        | none => st.tokensByUser
        | some s =>
          if (s.filter fun x => x != t).isEmpty then mapDelete u st.tokensByUser
          else mapSet u (s.filter fun x => x != t) st.tokensByUser
      else st.tokensByUser := rfl

theorem removeToken_metaByToken (u t : String) (st : Registry) :
    (removeToken u t st).metaByToken = mapDelete t st.metaByToken := rfl

theorem metaInMembership_upsert (st : Registry) (u t : String) (p : Option String)
    (n : Nat) (H : MetaInMembership st) :
    MetaInMembership (upsertToken u t p n st) := by
  intro t' m' h'
  by_cases ht : t' = t
  · refine ⟨u, setAdd t ((alistGet u st.tokensByUser).getD []), ?_, ?_⟩
    · simp [upsertToken, alistGet_mapSet_self]
    · subst ht; exact mem_setAdd_self _ _
  · have h0 : alistGet t' st.metaByToken = some m' := by
      simpa [upsertToken, alistGet_mapSet_ne t' t _ _ ht] using h'
    obtain ⟨u0, s0, hu0, hts⟩ := H t' m' h0
    by_cases hu : u0 = u
    · subst hu
      refine ⟨u0, setAdd t ((alistGet u0 st.tokensByUser).getD []), ?_, ?_⟩
      · simp [upsertToken, alistGet_mapSet_self]
      · have hgd : (alistGet u0 st.tokensByUser).getD [] = s0 := by rw [hu0]; rfl
        rw [hgd]; exact mem_setAdd_of_mem hts
    · refine ⟨u0, s0, ?_, hts⟩
      simpa [upsertToken, alistGet_mapSet_ne u0 u _ _ hu] using hu0

theorem metaInMembership_remove (st : Registry) (u t : String)
    (H : MetaInMembership st) : MetaInMembership (removeToken u t st) := by
  intro t' m' h'
  rw [removeToken_metaByToken] at h'
  have hne : t' ≠ t := by
    intro e; subst e
    rw [alistGet_mapDelete_self] at h'
    exact Option.noConfusion h'
  rw [alistGet_mapDelete_ne t' t _ hne] at h'
  obtain ⟨u0, s0, hu0, hts⟩ := H t' m' h'
  by_cases hu'' : u = ""
  · exact ⟨u0, s0, by rw [removeToken_tokensByUser]; simpa [hu''] using hu0, hts⟩
  · rcases hlook : alistGet u st.tokensByUser with _ | s
    · refine ⟨u0, s0, ?_, hts⟩
      rw [removeToken_tokensByUser]
      simpa [hu'', hlook] using hu0
    · by_cases hemp : ((s.filter fun x => x != t).isEmpty : Bool) = true
      · have hu0u : u0 ≠ u := by
          intro e
          rw [e, hlook] at hu0
          have hs : s = s0 := Option.some.inj hu0
          have hmem : t' ∈ s.filter fun x => x != t := mem_filter_ne (hs ▸ hts) hne
          rw [List.isEmpty_iff] at hemp
          simp [hemp] at hmem
        refine ⟨u0, s0, ?_, hts⟩
        rw [removeToken_tokensByUser]
        simp only [hu'', hlook, hemp, if_true, if_pos, ne_eq, not_false_iff]
        rw [alistGet_mapDelete_ne u0 u _ hu0u]
        exact hu0
      · by_cases hu0u : u0 = u
        · subst hu0u
          have hs : s = s0 := Option.some.inj (hlook ▸ hu0)
          refine ⟨u0, s.filter fun x => x != t, ?_, ?_⟩
          · rw [removeToken_tokensByUser]
            simp only [hu'', hlook, hemp, ne_eq, not_false_iff, if_true, if_false,
              Bool.false_eq_true]
            exact alistGet_mapSet_self _ _ _
          · exact mem_filter_ne (hs ▸ hts) hne
        · refine ⟨u0, s0, ?_, hts⟩
          rw [removeToken_tokensByUser]
          simp only [hu'', hlook, hemp, ne_eq, not_false_iff, if_true, if_false,
            Bool.false_eq_true]
          rw [alistGet_mapSet_ne u0 u _ _ hu0u]
          exact hu0

theorem metaInMembership_cleanupStep (st : Registry) (rt : MulticastOutcome × String)
    (H : MetaInMembership st) : MetaInMembership (cleanupStep st rt) := by
  unfold cleanupStep
  repeat' split
  all_goals first
    | exact metaInMembership_remove st _ _ H
    | exact H

theorem metaInMembership_cleanup (tokens : List String)
    (responses : List MulticastOutcome) (st : Registry) (H : MetaInMembership st) :
    MetaInMembership (cleanupInvalid tokens responses st) := by
  unfold cleanupInvalid
  generalize (responses.zip tokens) = l
  induction l generalizing st with
  | nil => simpa using H
  | cons rt rest ih =>
    rw [List.foldl_cons]
    exact ih _ (metaInMembership_cleanupStep st rt H)

theorem sendToUser_snd (u : String) (data : List (String × JsValue)) (st : Registry)
    (provider : List String → List (String × String) → Except String MulticastResponse) :
    (sendToUser u data st provider).2 =
      if (tokensOf st u).isEmpty then st
      else
        match provider (tokensOf st u) (ensureStringData data) with
        | Except.error _ => st
        | Except.ok resp => cleanupInvalid (tokensOf st u) resp.responses st := by
  unfold sendToUser
  dsimp only
  split
  · rfl
  · split <;> rfl

theorem metaInMembership_sendToUser (u : String) (data : List (String × JsValue))
    (st : Registry)
    (provider : List String → List (String × String) → Except String MulticastResponse)
    (H : MetaInMembership st) : MetaInMembership (sendToUser u data st provider).2 := by
  rw [sendToUser_snd]
  split
  · exact H
  · split
    · exact H
    · exact metaInMembership_cleanup _ _ st H

theorem metaInMembership_applyOp (st : Registry) (op : Op)
    (H : MetaInMembership st) : MetaInMembership (applyOp st op) := by
  cases op with
  | upsert u t p n => exact metaInMembership_upsert st u t p n H
  | remove u t => exact metaInMembership_remove st u t H
  | dispatch u outcome =>
    exact metaInMembership_sendToUser u [] st (fun _ _ => outcome) H

theorem metaInMembership_applyOps (ops : List Op) :
    MetaInMembership (applyOps ops) := by
  unfold applyOps
  have h : ∀ st, MetaInMembership st → MetaInMembership (ops.foldl applyOp st) := by
    induction ops with
    | nil => intro st H; simpa using H
    | cons op rest ih =>
      intro st H
      rw [List.foldl_cons]
      exact ih _ (metaInMembership_applyOp st op H)
  refine h emptyRegistry ?_
  intro t m hm
  simp [emptyRegistry, alistGet] at hm

theorem noEmpty_upsert (st : Registry) (u t : String) (p : Option String) (n : Nat)
    (H : NoEmptyUserEntry st) : NoEmptyUserEntry (upsertToken u t p n st) := by
  intro u0 s' h'
  by_cases hu : u0 = u
  · subst hu
    have hs : s' = setAdd t ((alistGet u0 st.tokensByUser).getD []) := by
      simp only [upsertToken] at h'
      rw [alistGet_mapSet_self] at h'
      exact (Option.some.inj h').symm
    rw [hs]
    exact setAdd_ne_nil _ _
  · refine H u0 s' ?_
    simpa [upsertToken, alistGet_mapSet_ne u0 u _ _ hu] using h'

theorem noEmpty_remove (st : Registry) (u t : String)
    (H : NoEmptyUserEntry st) : NoEmptyUserEntry (removeToken u t st) := by
  intro u0 s' h'
  rw [removeToken_tokensByUser] at h'
  by_cases hu'' : u = ""
  · exact H u0 s' (by simpa [hu''] using h')
  · rcases hlook : alistGet u st.tokensByUser with _ | s
    · rw [hlook] at h'
      exact H u0 s' (by simpa [hu''] using h')
    · rw [hlook] at h'
      by_cases hemp : ((s.filter fun x => x != t).isEmpty : Bool) = true
      · simp only [hu'', ne_eq, not_false_iff, if_true, hemp, if_pos] at h'
        by_cases hu0u : u0 = u
        · subst hu0u
          rw [alistGet_mapDelete_self] at h'
          exact Option.noConfusion h'
        · exact H u0 s' (by rwa [alistGet_mapDelete_ne u0 u _ hu0u] at h')
      · simp only [hu'', ne_eq, not_false_iff, if_true, hemp, if_false,
          Bool.false_eq_true] at h'
        by_cases hu0u : u0 = u
        · subst hu0u
          rw [alistGet_mapSet_self] at h'
          have hs : s' = s.filter fun x => x != t := (Option.some.inj h').symm
          rw [hs]
          intro hnil
          rw [← List.isEmpty_iff] at hnil
          exact hemp hnil
        · exact H u0 s' (by rwa [alistGet_mapSet_ne u0 u _ _ hu0u] at h')

theorem noEmpty_cleanupStep (st : Registry) (rt : MulticastOutcome × String)
    (H : NoEmptyUserEntry st) : NoEmptyUserEntry (cleanupStep st rt) := by
  unfold cleanupStep
  repeat' split
  all_goals first
    | exact noEmpty_remove st _ _ H
    | exact H

theorem noEmpty_cleanup (tokens : List String) (responses : List MulticastOutcome)
    (st : Registry) (H : NoEmptyUserEntry st) :
    NoEmptyUserEntry (cleanupInvalid tokens responses st) := by
  unfold cleanupInvalid
  generalize (responses.zip tokens) = l
  induction l generalizing st with
  | nil => simpa using H
  | cons rt rest ih =>
    rw [List.foldl_cons]
    exact ih _ (noEmpty_cleanupStep st rt H)

theorem noEmpty_sendToUser (u : String) (data : List (String × JsValue))
    (st : Registry)
    (provider : List String → List (String × String) → Except String MulticastResponse)
    (H : NoEmptyUserEntry st) : NoEmptyUserEntry (sendToUser u data st provider).2 := by
  rw [sendToUser_snd]
  split
  · exact H
  · split
    · exact H
    · exact noEmpty_cleanup _ _ st H

theorem noEmpty_applyOp (st : Registry) (op : Op)
    (H : NoEmptyUserEntry st) : NoEmptyUserEntry (applyOp st op) := by
  cases op with
  | upsert u t p n => exact noEmpty_upsert st u t p n H
  | remove u t => exact noEmpty_remove st u t H
  | dispatch u outcome => exact noEmpty_sendToUser u [] st (fun _ _ => outcome) H

theorem noEmpty_applyOps (ops : List Op) : NoEmptyUserEntry (applyOps ops) := by
  unfold applyOps
  have h : ∀ st, NoEmptyUserEntry st → NoEmptyUserEntry (ops.foldl applyOp st) := by
    induction ops with
    | nil => intro st H; simpa using H
    | cons op rest ih =>
      intro st H
      rw [List.foldl_cons]
      exact ih _ (noEmpty_applyOp st op H)
  refine h emptyRegistry ?_
  intro u s hm
  simp [emptyRegistry, alistGet] at hm

theorem upsertToken_tokensByUser (u t : String) (p : Option String) (n : Nat)
    (st : Registry) :
    (upsertToken u t p n st).tokensByUser =
      mapSet u (setAdd t ((alistGet u st.tokensByUser).getD [])) st.tokensByUser := rfl

theorem upsertToken_metaByToken (u t : String) (p : Option String) (n : Nat)
    (st : Registry) :
    (upsertToken u t p n st).metaByToken =
      mapSet t ⟨u, jsOrDefault p "android", n⟩ st.metaByToken := rfl

/-- `removeToken` leaves the registry untouched when the token is wholly
absent (no membership under the given user, no metadata), provided no user
entry holds an empty set. -/
theorem removeToken_noop (st : Registry) (u t : String) (hinv : NoEmptyUserEntry st)
    (hu : u ≠ "") (hmem : t ∉ tokensOf st u) (hmeta : metadataOf st t = none) :
    removeToken u t st = st := by
  have hmeta' : mapDelete t st.metaByToken = st.metaByToken :=
    mapDelete_of_absent t _ hmeta
  have htbu : (removeToken u t st).tokensByUser = st.tokensByUser := by
    rw [removeToken_tokensByUser]
    simp only [hu, ne_eq, not_false_iff, if_true]
    rcases hlook : alistGet u st.tokensByUser with _ | s
    · rfl
    · dsimp only
      have hts : t ∉ s := by
        rw [tokensOf, hlook] at hmem
        simpa using hmem
      have hfil : (s.filter fun x => x != t) = s := filter_ne_of_not_mem hts
      rw [hfil]
      have hne : s ≠ [] := hinv u s hlook
      rw [if_neg (by simpa [List.isEmpty_iff] using hne)]
      exact mapSet_of_lookup u s _ hlook
  have hall : removeToken u t st
      = ⟨(removeToken u t st).tokensByUser, (removeToken u t st).metaByToken⟩ := rfl
  rw [hall, htbu, removeToken_metaByToken, hmeta']

/-! ### The claims -/

/-- C1, counterexample: after `upsert(u1,tk)`, `upsert(u2,tk)`,
`remove(u1,tk)` the token `tk` still sits in `u2`'s membership set while
its metadata entry is gone, so the two indexes are not in lock-step. -/
theorem registry_lockstep_counterexample :
    "tk" ∈ tokensOf (applyOps [Op.upsert "u1" "tk" none 0,
        Op.upsert "u2" "tk" none 0, Op.remove "u1" "tk"]) "u2" ∧
    metadataOf (applyOps [Op.upsert "u1" "tk" none 0,
        Op.upsert "u2" "tk" none 0, Op.remove "u1" "tk"]) "tk" = none := by
  constructor <;> decide

/-- C1, amended: over every sequence of registry operations from the
empty registry, only one direction of the lock-step holds — every token
with a metadata entry appears in some user's membership set; the converse
fails (see the counterexample). -/
theorem registry_lockstep_amended (ops : List Op) (t : String) (m : TokenMeta)
    (h : metadataOf (applyOps ops) t = some m) :
    ∃ u, t ∈ tokensOf (applyOps ops) u := by
  obtain ⟨u, s, hu, hts⟩ := metaInMembership_applyOps ops t m h
  refine ⟨u, ?_⟩
  rw [tokensOf, hu]
  exact hts

theorem registry_lockstep_amended_witness :
    ∃ u, "tk" ∈ tokensOf (applyOps [Op.upsert "u1" "tk" none 0]) u :=
  registry_lockstep_amended [Op.upsert "u1" "tk" none 0] "tk"
    ⟨"u1", "android", 0⟩ (by decide)

/-- C2: re-registering the same token under a different user rewrites the
metadata owner to the new user (last-write-wins) while the old user's
membership still contains the token. -/
theorem upsert_transfers_ownership (st : Registry) (u u2 t : String)
    (p p2 : Option String) (n n2 : Nat) (h : u ≠ u2) :
    metadataOf (upsertToken u2 t p2 n2 (upsertToken u t p n st)) t
        = some ⟨u2, jsOrDefault p2 "android", n2⟩ ∧
    t ∈ tokensOf (upsertToken u2 t p2 n2 (upsertToken u t p n st)) u := by
  constructor
  · rw [metadataOf, upsertToken_metaByToken, alistGet_mapSet_self]
  · have h1 : alistGet u (upsertToken u2 t p2 n2 (upsertToken u t p n st)).tokensByUser
        = alistGet u (upsertToken u t p n st).tokensByUser := by
      rw [upsertToken_tokensByUser u2 t p2 n2 _]
      exact alistGet_mapSet_ne u u2 _ _ h
    rw [tokensOf, h1, upsertToken_tokensByUser, alistGet_mapSet_self]
    exact mem_setAdd_self _ _

theorem upsert_transfers_ownership_witness :
    metadataOf (upsertToken "u2" "tk" none 1
        (upsertToken "u1" "tk" none 0 emptyRegistry)) "tk"
      = some ⟨"u2", "android", 1⟩ ∧
    "tk" ∈ tokensOf (upsertToken "u2" "tk" none 1
        (upsertToken "u1" "tk" none 0 emptyRegistry)) "u1" :=
  upsert_transfers_ownership emptyRegistry "u1" "u2" "tk" none none 0 1 (by decide)

/-- C6: a second `upsert` with identical arguments changes nothing beyond
the metadata timestamp — the user→tokens index is identical, the token's
metadata has the same owner and platform with the refreshed timestamp, and
every other token's metadata is untouched. -/
theorem upsert_idempotent (st : Registry) (u t : String) (p : Option String)
    (n1 n2 : Nat) :
    (upsertToken u t p n2 (upsertToken u t p n1 st)).tokensByUser
        = (upsertToken u t p n1 st).tokensByUser ∧
    metadataOf (upsertToken u t p n1 st) t
        = some ⟨u, jsOrDefault p "android", n1⟩ ∧
    metadataOf (upsertToken u t p n2 (upsertToken u t p n1 st)) t
        = some ⟨u, jsOrDefault p "android", n2⟩ ∧
    ∀ t', t' ≠ t → metadataOf (upsertToken u t p n2 (upsertToken u t p n1 st)) t'
        = metadataOf (upsertToken u t p n1 st) t' := by
  have e1 : (alistGet u (upsertToken u t p n1 st).tokensByUser).getD []
      = setAdd t ((alistGet u st.tokensByUser).getD []) := by
    rw [upsertToken_tokensByUser, alistGet_mapSet_self]
    rfl
  refine ⟨?_, ?_, ?_, ?_⟩
  · rw [upsertToken_tokensByUser u t p n2 _, e1,
      setAdd_of_mem (mem_setAdd_self t _),
      upsertToken_tokensByUser u t p n1 st, mapSet_mapSet]
  · rw [metadataOf, upsertToken_metaByToken, alistGet_mapSet_self]
  · rw [metadataOf, upsertToken_metaByToken, alistGet_mapSet_self]
  · intro t' ht'
    rw [metadataOf, metadataOf, upsertToken_metaByToken u t p n2 _,
      alistGet_mapSet_ne t' t _ _ ht']

theorem upsert_idempotent_witness :
    metadataOf (upsertToken "u" "tk" none 5
        (upsertToken "u" "tk" none 3 emptyRegistry)) "other"
      = metadataOf (upsertToken "u" "tk" none 3 emptyRegistry) "other" :=
  (upsert_idempotent emptyRegistry "u" "tk" none 3 5).2.2.2 "other" (by decide)

/-- C7: `remove` after `upsert` of the same pair clears both the user's
membership of the token and the token's metadata; metadata deletion is
unconditional (any caller userId, matching the owner or not); and `remove`
of a wholly absent token is a no-op on every reachable registry. -/
theorem removeToken_spec :
    (∀ (st : Registry) (u t : String) (p : Option String) (n : Nat), u ≠ "" →
      t ∉ tokensOf (removeToken u t (upsertToken u t p n st)) u ∧
      metadataOf (removeToken u t (upsertToken u t p n st)) t = none) ∧
    (∀ (st : Registry) (u t : String),
      metadataOf (removeToken u t st) t = none) ∧
    (∀ (ops : List Op) (u t : String), u ≠ "" →
      t ∉ tokensOf (applyOps ops) u → metadataOf (applyOps ops) t = none →
      removeToken u t (applyOps ops) = applyOps ops) := by
  refine ⟨?_, ?_, ?_⟩
  · intro st u t p n hu
    constructor
    · have hl : alistGet u (upsertToken u t p n st).tokensByUser
          = some (setAdd t ((alistGet u st.tokensByUser).getD [])) := by
        rw [upsertToken_tokensByUser]
        exact alistGet_mapSet_self _ _ _
      rw [tokensOf, removeToken_tokensByUser]
      simp only [hu, ne_eq, not_false_iff, if_true, hl]
      by_cases hemp : (((setAdd t ((alistGet u st.tokensByUser).getD [])).filter
          fun x => x != t).isEmpty : Bool) = true
      · rw [if_pos hemp, alistGet_mapDelete_self]
        simp
      · rw [if_neg hemp, alistGet_mapSet_self]
        exact not_mem_filter_ne t _
    · rw [metadataOf, removeToken_metaByToken, alistGet_mapDelete_self]
  · intro st u t
    rw [metadataOf, removeToken_metaByToken, alistGet_mapDelete_self]
  · intro ops u t hu hmem hmeta
    exact removeToken_noop _ u t (noEmpty_applyOps ops) hu hmem hmeta

theorem removeToken_spec_witness :
    "tk" ∉ tokensOf (removeToken "u" "tk"
        (upsertToken "u" "tk" none 0 emptyRegistry)) "u" ∧
    removeToken "u" "zz" (applyOps [Op.upsert "u" "tk" none 0])
        = applyOps [Op.upsert "u" "tk" none 0] :=
  ⟨(removeToken_spec.1 emptyRegistry "u" "tk" none 0 (by decide)).1,
   removeToken_spec.2.2 [Op.upsert "u" "tk" none 0] "u" "zz" (by decide)
     (by decide) (by decide)⟩

/-- C8: on every reachable registry no user entry holds an empty token
set; removing a user's last token deletes the user's entry entirely; and
`tokensOf` on a user without an entry is the empty set, not an error. -/
theorem user_entry_iff_nonempty :
    (∀ ops : List Op, NoEmptyUserEntry (applyOps ops)) ∧
    (∀ (st : Registry) (u t : String), u ≠ "" →
      alistGet u st.tokensByUser = some [t] →
      alistGet u (removeToken u t st).tokensByUser = none) ∧
    (∀ (st : Registry) (u : String), alistGet u st.tokensByUser = none →
      tokensOf st u = []) := by
  refine ⟨noEmpty_applyOps, ?_, ?_⟩
  · intro st u t hu hl
    rw [removeToken_tokensByUser]
    simp only [hu, hl, ne_eq, not_false_iff, if_true]
    have hfil : (([t] : List String).filter fun x => x != t) = [] := by simp
    rw [hfil]
    simp [alistGet_mapDelete_self]
  · intro st u h
    rw [tokensOf, h]
    rfl

theorem user_entry_iff_nonempty_witness :
    alistGet "u1" (removeToken "u1" "tk"
        (applyOps [Op.upsert "u1" "tk" none 0])).tokensByUser = none :=
  user_entry_iff_nonempty.2.1 (applyOps [Op.upsert "u1" "tk" none 0]) "u1" "tk"
    (by decide) (by decide)

/-- C4: when the user has no tokens, `sendToUser` fails with the
`NoTokensForUser` (404) error, leaves the registry unchanged, and the
result is the same whatever the provider would answer — the provider is
never consulted. -/
theorem sendToUser_noTokensForUser (st : Registry) (u : String)
    (data : List (String × JsValue)) (h : tokensOf st u = []) :
    ∀ provider, sendToUser u data st provider
      = (Except.error SendError.noTokensForUser, st) := by
  intro provider
  unfold sendToUser
  simp [h]

theorem sendToUser_noTokensForUser_witness :
    sendToUser "unknown_user" [] emptyRegistry (fun _ _ => Except.ok ⟨[]⟩)
      = (Except.error SendError.noTokensForUser, emptyRegistry) :=
  sendToUser_noTokensForUser emptyRegistry "unknown_user" [] (by decide) _

/-- C10: when the provider's multicast call itself fails, `sendToUser`
surfaces the provider error and returns the registry exactly as it was —
no membership or metadata is touched. -/
theorem sendToUser_providerError (st : Registry) (u : String)
    (data : List (String × JsValue)) (e : String)
    (provider : List String → List (String × String) → Except String MulticastResponse)
    (h : tokensOf st u ≠ [])
    (hp : provider (tokensOf st u) (ensureStringData data) = Except.error e) :
    sendToUser u data st provider = (Except.error (SendError.providerError e), st) := by
  unfold sendToUser
  have hne : (tokensOf st u).isEmpty = false := by
    simpa [List.isEmpty_iff] using h
  simp [hne, hp]

theorem sendToUser_providerError_witness :
    sendToUser "u" [] (applyOps [Op.upsert "u" "tk" none 0])
        (fun _ _ => Except.error "boom")
      = (Except.error (SendError.providerError "boom"),
         applyOps [Op.upsert "u" "tk" none 0]) :=
  sendToUser_providerError (applyOps [Op.upsert "u" "tk" none 0]) "u" [] "boom"
    (fun _ _ => Except.error "boom") (by decide) rfl

/-- C9: `sendToToken` surfaces the provider's message id unchanged on
success and the provider's error unchanged on failure, and in both cases
returns the registry exactly as it was (no cleanup for a single send). -/
theorem sendToToken_spec (st : Registry) (t : String)
    (data : List (String × JsValue))
    (provider : String → List (String × String) → Except String String) :
    (∀ mid, provider t (ensureStringData data) = Except.ok mid →
      sendToToken t data st provider = (Except.ok mid, st)) ∧
    (∀ e, provider t (ensureStringData data) = Except.error e →
      sendToToken t data st provider = (Except.error e, st)) := by
  constructor <;> intro x hx <;> unfold sendToToken <;> rw [hx]

theorem sendToToken_spec_witness :
    sendToToken "tok" [] emptyRegistry (fun _ _ => Except.ok "msg-42")
      = (Except.ok "msg-42", emptyRegistry) :=
  (sendToToken_spec emptyRegistry "tok" [] (fun _ _ => Except.ok "msg-42")).1
    "msg-42" rfl

/-- C5: normalization coerces every payload value to a string — a string
value passes through unchanged, a non-string value becomes its textual
JSON representation, the spec's example normalizes as stated — and both
`sendToToken` and `sendToUser` depend on the provider only through its
answer at the normalized payload, i.e. both call it with
`ensureStringData data`. -/
theorem ensureStringData_spec :
    (∀ data : List (String × JsValue),
      List.Forall₂ (fun kv kv' => kv'.1 = kv.1 ∧
          (∀ s, kv.2 = JsValue.str s → kv'.2 = s) ∧
          ((∀ s, kv.2 ≠ JsValue.str s) → kv'.2 = JsValue.stringify kv.2))
        data (ensureStringData data)) ∧
    ensureStringData [("type", JsValue.str "chat"), ("count", JsValue.num 3)]
      = [("type", "chat"), ("count", "3")] ∧
    (∀ (t : String) (data : List (String × JsValue)) (st : Registry) f g,
      f t (ensureStringData data) = g t (ensureStringData data) →
      sendToToken t data st f = sendToToken t data st g) ∧
    (∀ (u : String) (data : List (String × JsValue)) (st : Registry) f g,
      f (tokensOf st u) (ensureStringData data)
          = g (tokensOf st u) (ensureStringData data) →
      sendToUser u data st f = sendToUser u data st g) := by
  refine ⟨?_, by decide, ?_, ?_⟩
  · intro data
    induction data with
    | nil => simp [ensureStringData]
    | cons kv rest ih =>
      obtain ⟨k, v⟩ := kv
      refine List.Forall₂.cons ⟨rfl, ?_, ?_⟩ ih
      · intro s hs
        dsimp only at hs ⊢
        rw [hs]
      · intro hns
        dsimp only at hns ⊢
        cases v with
        | str s => exact absurd rfl (hns s)
        | num n => rfl
        | bool b => rfl
        | null => rfl
  · intro t data st f g h
    unfold sendToToken
    rw [h]
  · intro u data st f g h
    unfold sendToUser
    dsimp only
    split
    · rfl
    · rw [h]

theorem ensureStringData_spec_witness :
    sendToToken "tok" [("a", JsValue.str "x"), ("n", JsValue.num 3)] emptyRegistry
        (fun _ d => Except.ok (String.join (d.map fun kv => kv.2)))
      = sendToToken "tok" [("a", JsValue.str "x"), ("n", JsValue.num 3)] emptyRegistry
        (fun _ _ => Except.ok "x3") :=
  ensureStringData_spec.2.2.1 "tok" [("a", JsValue.str "x"), ("n", JsValue.num 3)]
    emptyRegistry _ _ rfl

/-- C3: for a user whose token list is `[t1, t2]`, a multicast response
marking `t1` as a permanently-invalid failure and `t2` as a success makes
`sendToUser` report `successCount 1, failureCount 1`; when `t1` has a
metadata entry owned by the user, `t1` is removed from the registry
(membership and metadata) while `t2`'s membership and metadata survive;
and when `t1` has no metadata entry the cleanup is skipped and the
registry is returned unchanged, without aborting the operation. -/
theorem sendToUser_cleanup_spec (st : Registry) (u t1 t2 code : String)
    (data : List (String × JsValue))
    (hts : tokensOf st u = [t1, t2]) (hne : t1 ≠ t2)
    (hcode : isInvalidTokenCode code = true) (hu : u ≠ "") :
    (sendToUser u data st fun _ _ =>
        Except.ok ⟨[⟨false, code⟩, ⟨true, ""⟩]⟩).1 = Except.ok (1, 1) ∧
    (∀ m1, metadataOf st t1 = some m1 → m1.userId = u →
      tokensOf (sendToUser u data st fun _ _ =>
          Except.ok ⟨[⟨false, code⟩, ⟨true, ""⟩]⟩).2 u = [t2] ∧
      metadataOf (sendToUser u data st fun _ _ =>
          Except.ok ⟨[⟨false, code⟩, ⟨true, ""⟩]⟩).2 t1 = none ∧
      metadataOf (sendToUser u data st fun _ _ =>
          Except.ok ⟨[⟨false, code⟩, ⟨true, ""⟩]⟩).2 t2 = metadataOf st t2) ∧
    (metadataOf st t1 = none →
      (sendToUser u data st fun _ _ =>
          Except.ok ⟨[⟨false, code⟩, ⟨true, ""⟩]⟩).2 = st) := by
  have hnem : ¬((tokensOf st u).isEmpty = true) := by
    rw [hts]
    simp
  have hsnd : (sendToUser u data st fun _ _ =>
      Except.ok ⟨[⟨false, code⟩, ⟨true, ""⟩]⟩).2
      = cleanupStep st (⟨false, code⟩, t1) := by
    rw [sendToUser_snd, if_neg hnem]
    show cleanupInvalid (tokensOf st u) [⟨false, code⟩, ⟨true, ""⟩] st
        = cleanupStep st (⟨false, code⟩, t1)
    rw [hts]
    rfl
  have hlook : alistGet u st.tokensByUser = some [t1, t2] := by
    rcases hl : alistGet u st.tokensByUser with _ | s
    · rw [tokensOf, hl] at hts
      exact absurd hts (by simp)
    · rw [tokensOf, hl] at hts
      simp only [Option.getD_some] at hts
      rw [hts]
  refine ⟨?_, ?_, ?_⟩
  · unfold sendToUser
    dsimp only
    rw [if_neg hnem]
    rfl
  · intro m1 hm1 hown
    have hstepA : cleanupStep st (⟨false, code⟩, t1) = removeToken u t1 st := by
      simp [cleanupStep, hcode, hm1, hown, hu]
    have hfil : (([t1, t2] : List String).filter fun x => x != t1) = [t2] := by
      simp [Ne.symm hne]
    refine ⟨?_, ?_, ?_⟩
    · rw [hsnd, hstepA, tokensOf, removeToken_tokensByUser]
      simp only [hu, ne_eq, not_false_iff, if_true, hlook]
      try dsimp only
      rw [hfil, if_neg (by simp), alistGet_mapSet_self]
      rfl
    · rw [hsnd, hstepA, metadataOf, removeToken_metaByToken, alistGet_mapDelete_self]
    · rw [hsnd, hstepA, metadataOf, removeToken_metaByToken,
        alistGet_mapDelete_ne t2 t1 _ (Ne.symm hne)]
      rfl
  · intro hnone
    rw [hsnd]
    simp [cleanupStep, hcode, hnone]

theorem sendToUser_cleanup_spec_witness :
    tokensOf (sendToUser "u" []
        (applyOps [Op.upsert "u" "t1" none 0, Op.upsert "u" "t2" none 1])
        fun _ _ => Except.ok
          ⟨[⟨false, "messaging/registration-token-not-registered"⟩, ⟨true, ""⟩]⟩).2 "u"
      = ["t2"] :=
  ((sendToUser_cleanup_spec
      (applyOps [Op.upsert "u" "t1" none 0, Op.upsert "u" "t2" none 1])
      "u" "t1" "t2" "messaging/registration-token-not-registered" []
      (by decide) (by decide) (by decide) (by decide)).2.1
    ⟨"u", "android", 0⟩ (by decide) rfl).1

example : ensureStringData [("type", JsValue.str "chat"), ("count", JsValue.num 3)]
    = [("type", "chat"), ("count", "3")] := by decide

example :
    tokensOf (applyOps [Op.upsert "u1" "tk" none 0, Op.upsert "u2" "tk" none 0,
      Op.remove "u1" "tk"]) "u2" = ["tk"] := by decide

example :
    metadataOf (applyOps [Op.upsert "u1" "tk" none 0, Op.upsert "u2" "tk" none 0,
      Op.remove "u1" "tk"]) "tk" = none := by decide

end FcmServer
